import Mathlib

/-!
Verification of the condition-convergence waiters of the
external-secrets-operator e2e utility package (`test/e2e/utils`, package
`utils`): `VerifyPodsReadyByPrefix` / `isPodReady`, `WaitForESOResourceReady`
and `WaitForExternalSecretsConfigReady`.

The Go code polls a remote resource through
`k8s.io/apimachinery/pkg/util/wait.PollUntilContextTimeout` with
`immediate=true`: the probe runs once per tick until it reports done, reports
a non-nil error, the caller's context is cancelled, or the deadline elapses.
We embed one wait call as a finite trace of per-tick events: either the probe
runs on that tick's fetch/list outcome, or the caller's context is found
cancelled at that tick.  Exhausting the trace models the deadline elapsing
before any terminal event.
-/

/-- A well-formed condition entry (`map[string]interface{}` in Go).  Each
field models looking the key up in the map: `none` means the key is absent or
its value is not a string — `cond["type"].(string)` then yields the zero
value, and an interface comparison such as `cond["status"] == "True"` is
false. -/
structure CondMap where
  type? : Option String
  status? : Option String
  reason? : Option String
  message? : Option String
  deriving Repr, DecidableEq

/-- One element of the `status.conditions` slice: either a string-keyed map
or a value of some other shape (the `c.(map[string]interface{})` type
assertion fails and the loop `continue`s). -/
inductive CondEntry where
  | malformed : CondEntry
  | node : CondMap → CondEntry
  deriving Repr, DecidableEq

/-- Outcome of one `Get` + `unstructured.NestedSlice(u.Object, "status",
"conditions")` on a tick: the Get itself errors; the field is structurally
absent (`found=false`); the field exists but is not a slice (NestedSlice
returns an error); or a list of entries is produced. -/
inductive FetchResult where
  | fetchErr : FetchResult
  | noConds : FetchResult
  | badShape : FetchResult
  | conds : List CondEntry → FetchResult
  deriving Repr, DecidableEq

/-- A per-tick event seen by the poll loop: the probe runs on a fetch/list
outcome, or the caller's context is observed cancelled before the probe. -/
inductive PollEvent (ι : Type) where
  | tick : ι → PollEvent ι
  | cancel : PollEvent ι
  deriving Repr, DecidableEq

/-- Terminal outcome of `wait.PollUntilContextTimeout`: the probe returned
done; the probe returned a non-nil error (returned as-is); the caller's
context was cancelled (`context.Canceled`); or the deadline elapsed
(`context.DeadlineExceeded`). -/
inductive PollResult (E : Type) where
  | ok : PollResult E
  | probeErr : E → PollResult E
  | canceled : PollResult E
  | deadline : PollResult E
  deriving Repr, DecidableEq

/-- Model of `wait.PollUntilContextTimeout` over a trace of tick events, for a
stateful probe (the Go probes are closures; the dual-condition waiter's
closure mutates two captured variables, carried here as `σ`).  A probe
returning a non-nil error stops the loop and the error is returned; `done`
with a nil error stops with success; otherwise the loop continues with the
next tick; an exhausted trace is the elapsed deadline. -/
def pollLoop {σ ι E : Type} (probe : σ → ι → σ × Bool × Option E) :
    σ → List (PollEvent ι) → σ × PollResult E
  | s, [] => (s, PollResult.deadline)
  | s, PollEvent.cancel :: _ => (s, PollResult.canceled)
  | s, PollEvent.tick i :: rest =>
    match probe s i with
    | (s₁, _, some e) => (s₁, PollResult.probeErr e)
    | (s₁, true, none) => (s₁, PollResult.ok)
    | (s₁, false, none) => pollLoop probe s₁ rest

/-- Model of `wait.Interrupted` from `k8s.io/apimachinery/pkg/util/wait` (imported by
the source, not part of this repository): true iff the error is
`errWaitTimeout`, `context.Canceled`, or `context.DeadlineExceeded`.  In
particular cancellation counts as interruption.  The probe errors produced by
`WaitForExternalSecretsConfigReady` are `fmt.Errorf` values wrapping neither
context error, so they are not interrupted. -/
def waitInterrupted {E : Type} : PollResult E → Bool
  | PollResult.canceled => true
  | PollResult.deadline => true
  | _ => false

/-! ## WaitForESOResourceReady -/

/-- Does a condition entry have `type == "Ready"` and `status == "True"`
(interface comparisons against string constants)? -/
def entryIsReadyTrue : CondEntry → Bool
  | CondEntry.malformed => false
  | CondEntry.node m => m.type? = some "Ready" && m.status? = some "True"

/-- The condition-scanning loop of `WaitForESOResourceReady`: returns true at
the first entry with `type == "Ready"` and `status == "True"`; a `Ready`
entry with another status only prints a diagnostic and scanning continues;
entries that are not string-keyed maps are skipped. -/
def esoFindReady : List CondEntry → Bool
  | [] => false
  | CondEntry.malformed :: rest => esoFindReady rest
  | CondEntry.node m :: rest =>
    if m.type? = some "Ready" ∧ m.status? = some "True" then true
    else esoFindReady rest

/-- The probe of `WaitForESOResourceReady`: a Get error, an absent
`status.conditions` field, or a NestedSlice error all retry (`(false, nil)`);
otherwise done iff some entry is `Ready=True`.  The probe never returns a
non-nil error, so its error type is `Empty`. -/
def esoProbe : FetchResult → Bool × Option Empty
  | FetchResult.fetchErr => (false, none)
  | FetchResult.noConds => (false, none)
  | FetchResult.badShape => (false, none)
  | FetchResult.conds cs => (esoFindReady cs, none)

/-- Function `WaitForESOResourceReady`: polls the stateless probe and returns the poll
outcome unchanged. -/
def WaitForESOResourceReady (trace : List (PollEvent FetchResult)) :
    PollResult Empty :=
  (pollLoop (fun _ f => ((), esoProbe f)) () trace).2

/-! ## WaitForExternalSecretsConfigReady -/

/-- The two captured variables `lastReadyCondition` and
`lastDegradedCondition` of `WaitForExternalSecretsConfigReady`: the last
observed condition map per type, `none` until first observed. -/
structure ConfigAcc where
  lastReady : Option CondMap
  lastDegraded : Option CondMap
  deriving Repr, DecidableEq

/-- The loop over a tick's condition entries: a failed map assertion skips
the entry; otherwise `condType, _ := cond["type"].(string)` (zero value `""`
on absence or non-string) selects which accumulator variable is overwritten. -/
def updateAcc (acc : ConfigAcc) : List CondEntry → ConfigAcc
  | [] => acc
  | CondEntry.malformed :: rest => updateAcc acc rest
  | CondEntry.node m :: rest =>
    let t := m.type?.getD ""
    if t = "Ready" then updateAcc { acc with lastReady := some m } rest
    else if t = "Degraded" then updateAcc { acc with lastDegraded := some m } rest
    else updateAcc acc rest

/-- The non-nil probe errors of `WaitForExternalSecretsConfigReady`:
the wrapped NestedSlice error, or the fail-fast degraded error carrying the
resource name and the Degraded condition's `message` value. -/
inductive ProbeErr where
  | extractFailed : ProbeErr
  | degraded : String → Option String → ProbeErr
  deriving Repr, DecidableEq

/-- The probe of `WaitForExternalSecretsConfigReady`: Get errors retry; a
NestedSlice error is returned as a fatal probe error; an absent conditions
field retries; otherwise the accumulator is updated from the entries, the
tick retries until both conditions have been observed, then fails fast if
the last Degraded status is `"True"`, and otherwise is done iff the last
Ready status is `"True"`. -/
def configProbe (name : String) (acc : ConfigAcc) (f : FetchResult) :
    ConfigAcc × Bool × Option ProbeErr :=
  match f with
  | FetchResult.fetchErr => (acc, false, none)
  | FetchResult.badShape => (acc, false, some ProbeErr.extractFailed)
  | FetchResult.noConds => (acc, false, none)
  | FetchResult.conds cs =>
    let acc₁ := updateAcc acc cs
    match acc₁.lastReady, acc₁.lastDegraded with
    | none, _ => (acc₁, false, none)
    | some _, none => (acc₁, false, none)
    | some r, some d =>
      if d.status? = some "True" then
        (acc₁, false, some (ProbeErr.degraded name d.message?))
      else
        (acc₁, decide (r.status? = some "True"), none)

/-- The poll phase of `WaitForExternalSecretsConfigReady`: both accumulator
variables start nil. -/
def configPollFull (name : String) (trace : List (PollEvent FetchResult)) :
    ConfigAcc × PollResult ProbeErr :=
  pollLoop (configProbe name) ⟨none, none⟩ trace

/-- The value returned by `WaitForExternalSecretsConfigReady`, as a
structured error value: nil; the fail-fast degraded error; the wrapped
extraction error; the raw context errors; or the detailed timeout diagnostic
built from the last observed conditions. -/
inductive ConfigWaitResult where
  | success : ConfigWaitResult
  | degradedErr : String → Option String → ConfigWaitResult
  | extractErr : ConfigWaitResult
  | canceledErr : ConfigWaitResult
  | deadlineErr : ConfigWaitResult
  | timeoutErr : String → Option CondMap → Option CondMap → ConfigWaitResult
  deriving Repr, DecidableEq

/-- Pass a non-interrupted poll error through unchanged. -/
def pollResultToErr : PollResult ProbeErr → ConfigWaitResult
  | PollResult.ok => ConfigWaitResult.success
  | PollResult.probeErr ProbeErr.extractFailed => ConfigWaitResult.extractErr
  | PollResult.probeErr (ProbeErr.degraded n m) => ConfigWaitResult.degradedErr n m
  | PollResult.canceled => ConfigWaitResult.canceledErr
  | PollResult.deadline => ConfigWaitResult.deadlineErr

/-- Function `WaitForExternalSecretsConfigReady`: after polling, a nil error is
success; an error satisfying `wait.Interrupted` is replaced by the detailed
timeout diagnostic built from the two last-observed conditions; any other
error is returned as-is. -/
def WaitForExternalSecretsConfigReady (name : String)
    (trace : List (PollEvent FetchResult)) : ConfigWaitResult :=
  let r := configPollFull name trace
  match r.2 with
  | PollResult.ok => ConfigWaitResult.success
  | e =>
    if waitInterrupted e then
      ConfigWaitResult.timeoutErr name r.1.lastReady r.1.lastDegraded
    else pollResultToErr e

/-- Model of `fmt.Sprintf("%v", x)` for an interface value that is either a string or
nil (absent map key). -/
def fmtV : Option String → String
  | some s => s
  | none => "<nil>"

/-- The per-condition fragment of the timeout diagnostic: `"not set"` for a
never-observed condition, otherwise
`status (reason: reason, message: message)`. -/
def fmtCondStatus : Option CondMap → String
  | none => "not set"
  | some m =>
    fmtV m.status? ++ " (reason: " ++ fmtV m.reason? ++ ", message: " ++
      fmtV m.message? ++ ")"

/-- The timeout diagnostic message of `WaitForExternalSecretsConfigReady`. -/
def timeoutMsg (name : String) (r d : Option CondMap) : String :=
  "timeout waiting for ExternalSecretsConfig " ++ name ++ " to be ready: Ready=" ++
    fmtCondStatus r ++ ", Degraded=" ++ fmtCondStatus d

/-! ## VerifyPodsReadyByPrefix -/

/-- A pod condition (`corev1.PodCondition`), keeping the fields the code
reads. -/
structure PodCondition where
  type : String
  status : String
  deriving Repr, DecidableEq

/-- A pod (`corev1.Pod`), keeping the fields the code reads. -/
structure Pod where
  name : String
  phase : String
  conditions : List PodCondition
  deriving Repr, DecidableEq

/-- Function `isPodReady`: a two-entry map `{"Ready": false, "ContainersReady":
false}` is filled by one pass over the pod's conditions, setting an entry
true when a condition of that type has status `"True"`; both entries must
end up true. -/
def isPodReady (pod : Pod) : Bool :=
  let ready := pod.conditions.foldl
    (fun (r : Bool × Bool) c =>
      if c.type = "Ready" ∧ c.status = "True" then (true, r.2)
      else if c.type = "ContainersReady" ∧ c.status = "True" then (r.1, true)
      else r)
    (false, false)
  ready.1 && ready.2

/-- The per-pod health test at the use site in `VerifyPodsReadyByPrefix`:
`pod.Status.Phase == corev1.PodRunning && isPodReady(pod)`. -/
def podGate (pod : Pod) : Bool :=
  pod.phase = "Running" && isPodReady pod

/-- Model of `strings.HasPrefix(s, p)`: does `s` start with `p`?  Stated on the
character data of the strings. -/
def hasPrefix (p s : String) : Bool := p.data.isPrefixOf s.data

/-- Does the pod's name start with one of the expected name prefixes? -/
def matchesAny (pfxs : List String) (pod : Pod) : Bool :=
  pfxs.any (fun p => hasPrefix p pod.name)

/-- Go map assignment `m[k] = v` on an association list: overwrite the
existing entry for the key, else append. -/
def mapInsert (k : String) (v : Pod) : List (String × Pod) → List (String × Pod)
  | [] => [(k, v)]
  | (k₁, v₁) :: rest =>
    if k₁ = k then (k, v) :: rest else (k₁, v₁) :: mapInsert k v rest

/-- The `matched` map of `VerifyPodsReadyByPrefix`: for each listed pod and
each expected name prefix, if the name starts with the prefix, insert the pod
keyed by its name.  Repeated insertions of the same pod under the same key
collapse to one, so a pod is inserted once iff some prefix matches. -/
def buildMatched (pfxs : List String) (pods : List Pod) : List (String × Pod) :=
  pods.foldl
    (fun m pod => if matchesAny pfxs pod then mapInsert pod.name pod m else m) []

/-- Outcome of one pod `List` call. -/
inductive ListResult where
  | listErr : ListResult
  | pods : List Pod → ListResult
  deriving Repr, DecidableEq

/-- The only non-nil probe error of `VerifyPodsReadyByPrefix`: the pod list
error, returned to the Poller unabsorbed. -/
inductive PodErr where
  | listErr : PodErr
  deriving Repr, DecidableEq

/-- The probe of `VerifyPodsReadyByPrefix`: a list error is returned as the
probe's error (fatal to the poll); otherwise build the `matched` map, retry
unless its size equals the number of expected prefixes, then retry unless
every matched pod passes `podGate`. -/
def verifyPodsProbe (pfxs : List String) (l : ListResult) :
    Bool × Option PodErr :=
  match l with
  | ListResult.listErr => (false, some PodErr.listErr)
  | ListResult.pods pods =>
    let matched := buildMatched pfxs pods
    if matched.length ≠ pfxs.length then (false, none)
    else (matched.all (fun kv => podGate kv.2), none)

/-- Function `VerifyPodsReadyByPrefix`: polls the stateless probe and returns the poll
outcome unchanged. -/
def VerifyPodsReadyByPrefix (pfxs : List String)
    (trace : List (PollEvent ListResult)) : PollResult PodErr :=
  (pollLoop (fun _ l => ((), verifyPodsProbe pfxs l)) () trace).2

/-! ## Concrete condition values used in scenarios -/

/-- A condition map with the given type and status and no reason/message. -/
def mkCond (t s : String) : CondMap := ⟨some t, some s, none, none⟩

/-- A condition map with the given type, status and message. -/
def mkCondMsg (t s msg : String) : CondMap := ⟨some t, some s, none, some msg⟩

/-! ## Theorems -/

/-- Claim C8 —: For the fetched-snapshot sequence [no conditions, Ready:Unknown,
Ready:False + Degraded:False, Ready:True + Degraded:False] presented over
successive ticks, `WaitForExternalSecretsConfigReady` keeps polling on ticks
1 through 3 (the truncated traces end in the deadline, with no success and no
probe error) and returns success on tick 4. -/
theorem configReady_example_scenario :
    (configPollFull "esc"
        [PollEvent.tick FetchResult.noConds]).2 = PollResult.deadline ∧
    (configPollFull "esc"
        [PollEvent.tick FetchResult.noConds,
         PollEvent.tick (FetchResult.conds [CondEntry.node (mkCond "Ready" "Unknown")])]).2 =
      PollResult.deadline ∧
    (configPollFull "esc"
        [PollEvent.tick FetchResult.noConds,
         PollEvent.tick (FetchResult.conds [CondEntry.node (mkCond "Ready" "Unknown")]),
         PollEvent.tick (FetchResult.conds
           [CondEntry.node (mkCond "Ready" "False"),
            CondEntry.node (mkCond "Degraded" "False")])]).2 =
      PollResult.deadline ∧
    WaitForExternalSecretsConfigReady "esc"
        [PollEvent.tick FetchResult.noConds,
         PollEvent.tick (FetchResult.conds [CondEntry.node (mkCond "Ready" "Unknown")]),
         PollEvent.tick (FetchResult.conds
           [CondEntry.node (mkCond "Ready" "False"),
            CondEntry.node (mkCond "Degraded" "False")]),
         PollEvent.tick (FetchResult.conds
           [CondEntry.node (mkCond "Ready" "True"),
            CondEntry.node (mkCond "Degraded" "False")])] =
      ConfigWaitResult.success := by
  refine ⟨rfl, rfl, rfl, ?_⟩
  decide

/-! ## Poll-loop lemmas -/

/-- If a trace prefix exhausts without a terminal event (the poll would reach
the deadline on it alone), polling the extended trace continues from the
state reached at the end of the prefix. -/
theorem pollLoop_append {σ ι E : Type} (probe : σ → ι → σ × Bool × Option E)
    (s s₁ : σ) (pre rest : List (PollEvent ι))
    (h : pollLoop probe s pre = (s₁, PollResult.deadline)) :
    pollLoop probe s (pre ++ rest) = pollLoop probe s₁ rest := by
  induction pre generalizing s with
  | nil =>
    simp only [pollLoop] at h
    cases h
    rfl
  | cons e tl ih =>
    cases e with
    | cancel => simp [pollLoop] at h
    | tick i =>
      rcases hp : probe s i with ⟨s₂, done, err⟩
      cases err with
      | some e₀ => simp [pollLoop, hp] at h
      | none =>
        cases done with
        | true => simp [pollLoop, hp] at h
        | false =>
          simp only [List.cons_append, pollLoop, hp] at h ⊢
          exact ih s₂ h

/-- The poll loop reports done only because some probe invocation, at some
reached state, returned `(true, nil)`; the loop's final state is that
invocation's output state. -/
theorem pollLoop_ok_inv {σ ι E : Type} (probe : σ → ι → σ × Bool × Option E)
    (s s₁ : σ) (l : List (PollEvent ι))
    (h : pollLoop probe s l = (s₁, PollResult.ok)) :
    ∃ s₀ i, probe s₀ i = (s₁, true, none) := by
  induction l generalizing s with
  | nil => simp [pollLoop] at h
  | cons e tl ih =>
    cases e with
    | cancel => simp [pollLoop] at h
    | tick i =>
      rcases hp : probe s i with ⟨s₂, done, err⟩
      cases err with
      | some e₀ => simp [pollLoop, hp] at h
      | none =>
        cases done with
        | true =>
          simp only [pollLoop, hp] at h
          cases h
          exact ⟨s, i, hp⟩
        | false =>
          simp only [pollLoop, hp] at h
          exact ih s₂ h

/-- Claim C1 counterexample —: a trace whose single tick reports Degraded=True
(message "boom") and no Ready condition.  The claim demands immediate
termination at that tick with the degraded failure; the code instead keeps
polling (the both-present gate precedes the fail-fast check) and, the trace
exhausted, returns the timeout diagnostic. -/
theorem configReady_degraded_without_ready_times_out :
    WaitForExternalSecretsConfigReady "esc"
        [PollEvent.tick (FetchResult.conds
          [CondEntry.node (mkCondMsg "Degraded" "True" "boom")])] =
      ConfigWaitResult.timeoutErr "esc" none
        (some (mkCondMsg "Degraded" "True" "boom")) := by
  decide

/-- Claim C1 (amended) —: if a tick's update leaves the last observed Degraded
status `True` while Ready has (by then) been observed at least once, the wait
terminates at that tick with the degraded failure carrying Degraded's
message — regardless of the Ready status in the same snapshot and of any
later ticks. -/
theorem configReady_failfast_veto (name : String)
    (pre rest : List (PollEvent FetchResult)) (cs : List CondEntry)
    (acc₁ : ConfigAcc) (d : CondMap)
    (hpre : pollLoop (configProbe name) ⟨none, none⟩ pre =
      (acc₁, PollResult.deadline))
    (hready : (updateAcc acc₁ cs).lastReady.isSome = true)
    (hdeg : (updateAcc acc₁ cs).lastDegraded = some d)
    (hst : d.status? = some "True") :
    WaitForExternalSecretsConfigReady name
        (pre ++ PollEvent.tick (FetchResult.conds cs) :: rest) =
      ConfigWaitResult.degradedErr name d.message? := by
  rcases hr : (updateAcc acc₁ cs).lastReady with _ | r
  · rw [hr] at hready
    simp at hready
  · have hstep : configProbe name acc₁ (FetchResult.conds cs) =
        (updateAcc acc₁ cs, false, some (ProbeErr.degraded name d.message?)) := by
      simp only [configProbe, hr, hdeg, hst, if_pos]
    have hpoll : configPollFull name
        (pre ++ PollEvent.tick (FetchResult.conds cs) :: rest) =
        (updateAcc acc₁ cs, PollResult.probeErr (ProbeErr.degraded name d.message?)) := by
      unfold configPollFull
      rw [pollLoop_append (configProbe name) ⟨none, none⟩ acc₁ pre _ hpre]
      simp [pollLoop, hstep]
    simp [WaitForExternalSecretsConfigReady, hpoll, waitInterrupted, pollResultToErr]

/-- Claim C1 witness —: at tick 1 the snapshot reports Ready=True together with
Degraded=True (message "boom"); the wait fails fast with the degraded error
even though Ready is True in the same snapshot. -/
theorem configReady_failfast_veto_example :
    WaitForExternalSecretsConfigReady "esc"
        ([] ++ PollEvent.tick (FetchResult.conds
          [CondEntry.node (mkCond "Ready" "True"),
           CondEntry.node (mkCondMsg "Degraded" "True" "boom")]) ::
          [PollEvent.cancel]) =
      ConfigWaitResult.degradedErr "esc" (some "boom") :=
  configReady_failfast_veto "esc" [] [PollEvent.cancel]
    [CondEntry.node (mkCond "Ready" "True"),
     CondEntry.node (mkCondMsg "Degraded" "True" "boom")]
    ⟨none, none⟩ (mkCondMsg "Degraded" "True" "boom")
    (by decide) (by decide) (by decide) (by decide)

/-- Claim C4 counterexample —: a pod list error on tick 1 terminates
`VerifyPodsReadyByPrefix` immediately with that error, although tick 2 would
have listed a healthy matching pod — the list error is not absorbed as
transient. -/
theorem verifyPods_listErr_fatal :
    VerifyPodsReadyByPrefix ["app"]
        [PollEvent.tick ListResult.listErr,
         PollEvent.tick (ListResult.pods
           [⟨"app-1", "Running", [⟨"Ready", "True"⟩, ⟨"ContainersReady", "True"⟩]⟩])] =
      PollResult.probeErr PodErr.listErr := by
  decide

/-- Claim C4 (amended) —: a fetch failure is transient (probe reports not-done
with no error) in `WaitForESOResourceReady` and in
`WaitForExternalSecretsConfigReady`; but in `VerifyPodsReadyByPrefix` a list
error is handed to the Poller as the probe's error, terminating the wait
immediately with that error. -/
theorem transient_fetch_vs_fatal_list (name : String) (acc : ConfigAcc)
    (pfxs : List String) (lrest : List (PollEvent ListResult)) :
    configProbe name acc FetchResult.fetchErr = (acc, false, none) ∧
    esoProbe FetchResult.fetchErr = (false, none) ∧
    verifyPodsProbe pfxs ListResult.listErr = (false, some PodErr.listErr) ∧
    VerifyPodsReadyByPrefix pfxs (PollEvent.tick ListResult.listErr :: lrest) =
      PollResult.probeErr PodErr.listErr := by
  refine ⟨rfl, rfl, rfl, ?_⟩
  simp [VerifyPodsReadyByPrefix, pollLoop, verifyPodsProbe]

/-- Claim C5 counterexample —: the caller's context is cancelled at tick 1; the
returned error is the timeout diagnostic ("timeout waiting for ... Ready=not
set, Degraded=not set"), not the cancellation cause — `wait.Interrupted`
classifies `context.Canceled` as an interruption, so the cancellation is
wrapped into the timeout framing. -/
theorem configReady_cancel_wrapped_as_timeout :
    WaitForExternalSecretsConfigReady "esc" [PollEvent.cancel] =
      ConfigWaitResult.timeoutErr "esc" none none := by
  decide

/-- Claim C5 (amended) —: on cancellation, `WaitForESOResourceReady` and
`VerifyPodsReadyByPrefix` return the cancellation cause unchanged, distinct
from the deadline outcome; `WaitForExternalSecretsConfigReady`, however,
treats cancellation as an interruption (as `wait.Interrupted` matches
`context.Canceled`) and replaces it with its timeout diagnostic, so its
callers cannot distinguish cancellation from a timeout. -/
theorem cancellation_vs_timeout (name : String)
    (trace rest : List (PollEvent FetchResult)) (acc : ConfigAcc)
    (pfxs : List String) (lrest : List (PollEvent ListResult)) :
    (configPollFull name trace = (acc, PollResult.canceled) →
      WaitForExternalSecretsConfigReady name trace =
        ConfigWaitResult.timeoutErr name acc.lastReady acc.lastDegraded) ∧
    WaitForESOResourceReady (PollEvent.cancel :: rest) = PollResult.canceled ∧
    VerifyPodsReadyByPrefix pfxs (PollEvent.cancel :: lrest) =
      PollResult.canceled ∧
    (PollResult.canceled : PollResult Empty) ≠ PollResult.deadline ∧
    waitInterrupted (PollResult.canceled : PollResult ProbeErr) = true := by
  refine ⟨?_, rfl, rfl, by simp, rfl⟩
  intro h
  simp [WaitForExternalSecretsConfigReady, h, waitInterrupted]

/-- Claim C5 witness —: a concrete trace with one transient tick then a
cancellation; the convergence waiter reports the timeout diagnostic rather
than the cancellation cause. -/
theorem cancellation_vs_timeout_example :
    WaitForExternalSecretsConfigReady "w5"
        [PollEvent.tick FetchResult.fetchErr, PollEvent.cancel] =
      ConfigWaitResult.timeoutErr "w5" none none :=
  (cancellation_vs_timeout "w5"
      [PollEvent.tick FetchResult.fetchErr, PollEvent.cancel] []
      ⟨none, none⟩ [] []).1 (by decide)

/-! ## Both-observed gate -/

/-- Does a condition entry carry `"Degraded"` as its asserted string type
(the selector `condType, _ := cond["type"].(string)` used by the
accumulator update)? -/
def entryTypeIs (t : String) : CondEntry → Bool
  | CondEntry.malformed => false
  | CondEntry.node m => m.type?.getD "" = t

/-- A poll event free of Degraded-typed condition entries. -/
def noDegradedEvent : PollEvent FetchResult → Bool
  | PollEvent.tick (FetchResult.conds cs) =>
    cs.all (fun c => ! entryTypeIs "Degraded" c)
  | _ => true

/-- The accumulator update leaves `lastDegraded` untouched when no entry of
the tick is Degraded-typed. -/
theorem updateAcc_no_degraded (acc : ConfigAcc) (cs : List CondEntry)
    (h : cs.all (fun c => ! entryTypeIs "Degraded" c) = true) :
    (updateAcc acc cs).lastDegraded = acc.lastDegraded := by
  induction cs generalizing acc with
  | nil => rfl
  | cons c tl ih =>
    simp only [List.all_cons, Bool.and_eq_true] at h
    cases c with
    | malformed => exact ih acc h.2
    | node m =>
      simp only [entryTypeIs, Bool.not_eq_eq_eq_not, Bool.not_true,
        decide_eq_false_iff_not] at h
      simp only [updateAcc]
      by_cases hr : m.type?.getD "" = "Ready"
      · rw [if_pos hr]
        exact ih _ h.2
      · rw [if_neg hr, if_neg h.1]
        exact ih acc h.2

/-- A successful tick of the convergence probe requires both conditions
observed, the last Ready status `True` and the last Degraded status not
`True`; the probe's output state is the updated accumulator. -/
theorem configProbe_done_inv (name : String) (acc acc₁ : ConfigAcc)
    (f : FetchResult) (h : configProbe name acc f = (acc₁, true, none)) :
    ∃ r d, acc₁.lastReady = some r ∧ acc₁.lastDegraded = some d ∧
      r.status? = some "True" ∧ d.status? ≠ some "True" := by
  cases f with
  | fetchErr => simp [configProbe] at h
  | badShape => simp [configProbe] at h
  | noConds => simp [configProbe] at h
  | conds cs =>
    simp only [configProbe] at h
    split at h
    · simp at h
    · simp at h
    · rename_i r d hmr hmd
      split at h
      · simp at h
      · rename_i hst
        simp only [Prod.mk.injEq] at h
        obtain ⟨ha, hdone, -⟩ := h
        refine ⟨r, d, ?_, ?_, of_decide_eq_true hdone, hst⟩
        · rw [← ha]
          exact hmr
        · rw [← ha]
          exact hmd

/-- If no tick of the trace ever carries a Degraded-typed entry, the poll
phase never reports done. -/
theorem configPoll_no_degraded_not_ok (name : String)
    (trace : List (PollEvent FetchResult)) (s : ConfigAcc)
    (hs : s.lastDegraded = none)
    (h : trace.all noDegradedEvent = true) :
    (pollLoop (configProbe name) s trace).2 ≠ PollResult.ok := by
  induction trace generalizing s with
  | nil => simp [pollLoop]
  | cons e tl ih =>
    simp only [List.all_cons, Bool.and_eq_true] at h
    cases e with
    | cancel => simp [pollLoop]
    | tick f =>
      cases f with
      | fetchErr =>
        simp only [pollLoop, configProbe]
        exact ih s hs h.2
      | badShape => simp [pollLoop, configProbe]
      | noConds =>
        simp only [pollLoop, configProbe]
        exact ih s hs h.2
      | conds cs =>
        have hup : (updateAcc s cs).lastDegraded = none := by
          rw [updateAcc_no_degraded s cs h.1, hs]
        simp only [pollLoop, configProbe]
        rcases hr : (updateAcc s cs).lastReady with _ | r
        · exact ih _ hup h.2
        · rw [hup]
          exact ih _ hup h.2

/-- Claim C2 —: the convergence waiter reports done only when both the Ready and
the Degraded condition have been observed at least once (both accumulator
entries non-nil), the last Ready status is `True` and the last Degraded
status is not `True`; and on a trace that never carries a Degraded-typed
entry — e.g. Ready=True from the very first tick but Degraded never
reported — it never returns success. -/
theorem configReady_both_observed_gate (name : String)
    (trace : List (PollEvent FetchResult)) :
    (∀ acc : ConfigAcc, configPollFull name trace = (acc, PollResult.ok) →
      ∃ r d, acc.lastReady = some r ∧ acc.lastDegraded = some d ∧
        r.status? = some "True" ∧ d.status? ≠ some "True") ∧
    (trace.all noDegradedEvent = true →
      WaitForExternalSecretsConfigReady name trace ≠ ConfigWaitResult.success) := by
  constructor
  · intro acc h
    obtain ⟨s₀, i, hp⟩ := pollLoop_ok_inv (configProbe name) ⟨none, none⟩ acc trace h
    exact configProbe_done_inv name s₀ acc i hp
  · intro h hsucc
    have hnotok : (configPollFull name trace).2 ≠ PollResult.ok :=
      configPoll_no_degraded_not_ok name trace ⟨none, none⟩ rfl h
    rcases hres : (configPollFull name trace).2 with _ | e | _ | _
    · exact hnotok hres
    all_goals
      simp only [WaitForExternalSecretsConfigReady, hres] at hsucc
    · rcases e with _ | ⟨n, m⟩ <;>
        simp [waitInterrupted, pollResultToErr] at hsucc
    · simp [waitInterrupted] at hsucc
    · simp [waitInterrupted] at hsucc

/-- Claim C2 witness —: a one-tick trace reporting Ready=True and Degraded=False
does reach success, and the gate's conclusion holds of its final
accumulator. -/
theorem configReady_both_observed_gate_example :
    ∃ r d,
      (ConfigAcc.mk (some (mkCond "Ready" "True"))
          (some (mkCond "Degraded" "False"))).lastReady = some r ∧
      (ConfigAcc.mk (some (mkCond "Ready" "True"))
          (some (mkCond "Degraded" "False"))).lastDegraded = some d ∧
      r.status? = some "True" ∧ d.status? ≠ some "True" :=
  (configReady_both_observed_gate "w2"
      [PollEvent.tick (FetchResult.conds
        [CondEntry.node (mkCond "Ready" "True"),
         CondEntry.node (mkCond "Degraded" "False")])]).1
    (ConfigAcc.mk (some (mkCond "Ready" "True")) (some (mkCond "Degraded" "False")))
    (by decide)

/-! ## Single-condition waiter -/

/-- The scanning loop of `WaitForESOResourceReady` finds a `Ready=True` entry
exactly when one exists in the list. -/
theorem esoFindReady_eq_any (cs : List CondEntry) :
    esoFindReady cs = cs.any entryIsReadyTrue := by
  induction cs with
  | nil => rfl
  | cons c tl ih =>
    cases c with
    | malformed => simpa [esoFindReady, entryIsReadyTrue] using ih
    | node m =>
      by_cases h : m.type? = some "Ready" ∧ m.status? = some "True"
      · simp [esoFindReady, entryIsReadyTrue, h]
      · simp only [esoFindReady, if_neg h, List.any_cons, entryIsReadyTrue]
        rw [ih]
        rcases Decidable.not_and_iff_or_not.mp h with h₁ | h₁ <;>
          simp [h₁]

/-- A run of failing fetches followed by a `Ready=True` snapshot ends in
success. -/
theorem esoWait_absorbs_failures (n : Nat) :
    WaitForESOResourceReady
        (List.replicate n (PollEvent.tick FetchResult.fetchErr) ++
          [PollEvent.tick (FetchResult.conds [CondEntry.node (mkCond "Ready" "True")])]) =
      PollResult.ok := by
  induction n with
  | zero => decide
  | succ k ih =>
    simpa [WaitForESOResourceReady, List.replicate_succ, pollLoop,
      esoProbe] using ih

/-- Claim C6 —: in `WaitForESOResourceReady`, a failed Get, an absent conditions
field, and a NestedSlice error are all transient (probe not-done, nil
error); a condition list yields done exactly when it contains an entry with
`type == "Ready"` and `status == "True"` (any other status retries), and in
particular a fetch that fails N times and then reports Ready=True ends in
success. -/
theorem esoResourceReady_convergence (cs : List CondEntry) (n : Nat) :
    esoProbe FetchResult.fetchErr = (false, none) ∧
    esoProbe FetchResult.noConds = (false, none) ∧
    esoProbe FetchResult.badShape = (false, none) ∧
    esoProbe (FetchResult.conds cs) = (esoFindReady cs, none) ∧
    (esoFindReady cs = true ↔ ∃ e ∈ cs, entryIsReadyTrue e = true) ∧
    WaitForESOResourceReady
        (List.replicate n (PollEvent.tick FetchResult.fetchErr) ++
          [PollEvent.tick (FetchResult.conds [CondEntry.node (mkCond "Ready" "True")])]) =
      PollResult.ok := by
  refine ⟨rfl, rfl, rfl, rfl, ?_, esoWait_absorbs_failures n⟩
  rw [esoFindReady_eq_any]
  exact List.any_eq_true

/-- Claim C6 witness —: three failing fetches then a `Ready=True` snapshot give
success. -/
theorem esoResourceReady_convergence_example :
    WaitForESOResourceReady
        (List.replicate 3 (PollEvent.tick FetchResult.fetchErr) ++
          [PollEvent.tick (FetchResult.conds [CondEntry.node (mkCond "Ready" "True")])]) =
      PollResult.ok :=
  (esoResourceReady_convergence [] 3).2.2.2.2.2
/-! ## Malformed entries are skipped -/

/-- Is the entry a string-keyed map (does the `c.(map[string]interface{})`
assertion succeed)? -/
def isWellFormed : CondEntry → Bool
  | CondEntry.malformed => false
  | CondEntry.node _ => true

/-- Dropping the malformed entries does not change the single-condition
scan. -/
theorem esoFindReady_filter_wf (cs : List CondEntry) :
    esoFindReady cs = esoFindReady (cs.filter isWellFormed) := by
  induction cs with
  | nil => rfl
  | cons c tl ih =>
    cases c with
    | malformed => simpa [esoFindReady, isWellFormed, List.filter] using ih
    | node m => simp [esoFindReady, isWellFormed, List.filter, ih]

/-- Dropping the malformed entries does not change the dual-condition
accumulator update. -/
theorem updateAcc_filter_wf (cs : List CondEntry) (acc : ConfigAcc) :
    updateAcc acc cs = updateAcc acc (cs.filter isWellFormed) := by
  induction cs generalizing acc with
  | nil => rfl
  | cons c tl ih =>
    cases c with
    | malformed => simpa [updateAcc, isWellFormed, List.filter] using ih acc
    | node m =>
      simp only [List.filter, isWellFormed, updateAcc]
      by_cases hr : m.type?.getD "" = "Ready"
      · simp [hr, ih]
      · by_cases hd : m.type?.getD "" = "Degraded" <;>
          simp [hr, hd, ih]

/-- Claim C9 —: in both waiters, a condition entry of the wrong shape is skipped
and processing continues with the remaining entries — the single-condition
scan and the dual-condition accumulator update are unchanged by dropping the
malformed entries — and a snapshot consisting only of malformed entries acts
on the convergence probe exactly like an empty condition list, so malformed
entries never by themselves fail the wait. -/
theorem malformed_entries_skipped (cs ms : List CondEntry) (acc : ConfigAcc)
    (name : String) :
    esoFindReady cs = esoFindReady (cs.filter isWellFormed) ∧
    updateAcc acc cs = updateAcc acc (cs.filter isWellFormed) ∧
    (ms.all (fun e => ! isWellFormed e) = true →
      configProbe name acc (FetchResult.conds ms) =
        configProbe name acc (FetchResult.conds [])) := by
  refine ⟨esoFindReady_filter_wf cs, updateAcc_filter_wf cs acc, ?_⟩
  intro hms
  have hfil : ms.filter isWellFormed = [] := by
    induction ms with
    | nil => rfl
    | cons e tl ih =>
      simp only [List.all_cons, Bool.and_eq_true] at hms
      cases e with
      | malformed => simpa [List.filter, isWellFormed] using ih hms.2
      | node m => simp [isWellFormed] at hms
  have hup : updateAcc acc ms = acc := by
    rw [updateAcc_filter_wf ms acc, hfil]
    rfl
  simp [configProbe, hup, updateAcc]

/-- Claim C9 witness —: a snapshot of two malformed entries acts on the
convergence probe like the empty condition list. -/
theorem malformed_entries_skipped_example :
    configProbe "w9" ⟨none, none⟩
        (FetchResult.conds [CondEntry.malformed, CondEntry.malformed]) =
      configProbe "w9" ⟨none, none⟩ (FetchResult.conds []) :=
  (malformed_entries_skipped [] [CondEntry.malformed, CondEntry.malformed]
      ⟨none, none⟩ "w9").2.2 (by decide)
/-! ## Timeout diagnostic -/

/-- Overwrite semantics for "last observed": a newer observation, when
present, replaces the older one. -/
def lastOr (old new : Option CondMap) : Option CondMap :=
  match new with
  | some m => some m
  | none => old

/-- The last well-formed entry of a condition list whose asserted string
type is `t`, if any. -/
def lastCondInList (t : String) : List CondEntry → Option CondMap
  | [] => none
  | CondEntry.malformed :: rest => lastCondInList t rest
  | CondEntry.node m :: rest =>
    match lastCondInList t rest with
    | some m₁ => some m₁
    | none => if m.type?.getD "" = t then some m else none

/-- The condition entries delivered by one poll event (none unless the tick
produced a condition list). -/
def tickConds : PollEvent FetchResult → List CondEntry
  | PollEvent.tick (FetchResult.conds cs) => cs
  | _ => []

/-- All condition entries delivered over a trace, in observation order. -/
def traceConds : List (PollEvent FetchResult) → List CondEntry
  | [] => []
  | e :: rest => tickConds e ++ traceConds rest

/-- The last observed condition of asserted type `t` over a whole trace. -/
def lastCondInTrace (t : String) (trace : List (PollEvent FetchResult)) :
    Option CondMap :=
  lastCondInList t (traceConds trace)

theorem lastOr_assoc (a b c : Option CondMap) :
    lastOr (lastOr a b) c = lastOr a (lastOr b c) := by
  cases c <;> cases b <;> rfl

theorem lastOr_none_left (a : Option CondMap) : lastOr none a = a := by
  cases a <;> rfl

theorem lastCondInList_append (t : String) (cs cs₁ : List CondEntry) :
    lastCondInList t (cs ++ cs₁) =
      lastOr (lastCondInList t cs) (lastCondInList t cs₁) := by
  induction cs with
  | nil => simp [lastCondInList, lastOr_none_left]
  | cons c tl ih =>
    cases c with
    | malformed => simpa [lastCondInList] using ih
    | node m =>
      simp only [List.cons_append, lastCondInList]
      have ih₁ : lastCondInList t (tl.append cs₁) =
          lastOr (lastCondInList t tl) (lastCondInList t cs₁) := ih
      rw [ih₁]
      rcases h₁ : lastCondInList t cs₁ with _ | m₁ <;>
        rcases h₂ : lastCondInList t tl with _ | m₂ <;>
          simp [lastOr, h₁, h₂]

/-- The output state of a convergence-probe tick on a condition list is the
updated accumulator, in every branch. -/
theorem configProbe_conds_fst (name : String) (acc : ConfigAcc)
    (cs : List CondEntry) :
    (configProbe name acc (FetchResult.conds cs)).1 = updateAcc acc cs := by
  simp only [configProbe]
  split
  · rfl
  · rfl
  · split
    · rfl
    · rfl

/-- The accumulator update realises "last observed wins" for the Ready
slot. -/
theorem updateAcc_lastReady (cs : List CondEntry) (acc : ConfigAcc) :
    (updateAcc acc cs).lastReady =
      lastOr acc.lastReady (lastCondInList "Ready" cs) := by
  induction cs generalizing acc with
  | nil => rfl
  | cons c tl ih =>
    cases c with
    | malformed => simpa [updateAcc, lastCondInList] using ih acc
    | node m =>
      simp only [updateAcc, lastCondInList]
      by_cases hr : m.type?.getD "" = "Ready"
      · rw [if_pos hr, ih]
        rcases h₂ : lastCondInList "Ready" tl with _ | m₁ <;>
          simp [lastOr, hr, h₂]
      · rw [if_neg hr]
        have step :
            (if m.type?.getD "" = "Degraded"
              then updateAcc { acc with lastDegraded := some m } tl
              else updateAcc acc tl).lastReady =
            lastOr acc.lastReady (lastCondInList "Ready" tl) := by
          by_cases hd : m.type?.getD "" = "Degraded"
          · rw [if_pos hd, ih]
          · rw [if_neg hd, ih]
        rw [step]
        rcases h₂ : lastCondInList "Ready" tl with _ | m₁ <;>
          simp [lastOr, hr, h₂]

/-- The accumulator update realises "last observed wins" for the Degraded
slot. -/
theorem updateAcc_lastDegraded (cs : List CondEntry) (acc : ConfigAcc) :
    (updateAcc acc cs).lastDegraded =
      lastOr acc.lastDegraded (lastCondInList "Degraded" cs) := by
  induction cs generalizing acc with
  | nil => rfl
  | cons c tl ih =>
    cases c with
    | malformed => simpa [updateAcc, lastCondInList] using ih acc
    | node m =>
      simp only [updateAcc, lastCondInList]
      by_cases hr : m.type?.getD "" = "Ready"
      · rw [if_pos hr, ih]
        have hne : ¬ m.type?.getD "" = "Degraded" := by
          rw [hr]
          decide
        rcases h₂ : lastCondInList "Degraded" tl with _ | m₁ <;>
          simp [lastOr, hne, h₂]
      · rw [if_neg hr]
        by_cases hd : m.type?.getD "" = "Degraded"
        · rw [if_pos hd, ih]
          rcases h₂ : lastCondInList "Degraded" tl with _ | m₁ <;>
            simp [lastOr, hd, h₂]
        · rw [if_neg hd, ih]
          rcases h₂ : lastCondInList "Degraded" tl with _ | m₁ <;>
            simp [lastOr, hd, h₂]

/-- If the poll phase runs to the deadline, its final accumulator holds, for
each slot, the last observed condition of that type over the whole trace
(on top of whatever the starting state held). -/
theorem configPoll_deadline_acc (name : String)
    (trace : List (PollEvent FetchResult)) (s acc : ConfigAcc)
    (h : pollLoop (configProbe name) s trace = (acc, PollResult.deadline)) :
    acc.lastReady = lastOr s.lastReady (lastCondInList "Ready" (traceConds trace)) ∧
    acc.lastDegraded = lastOr s.lastDegraded (lastCondInList "Degraded" (traceConds trace)) := by
  induction trace generalizing s with
  | nil =>
    simp only [pollLoop] at h
    cases h
    simp [traceConds, lastCondInList, lastOr]
  | cons e tl ih =>
    cases e with
    | cancel => simp [pollLoop] at h
    | tick f =>
      cases f with
      | fetchErr =>
        simp only [pollLoop, configProbe] at h
        simpa [traceConds, tickConds, lastCondInList] using ih s h
      | badShape => simp [pollLoop, configProbe] at h
      | noConds =>
        simp only [pollLoop, configProbe] at h
        simpa [traceConds, tickConds, lastCondInList] using ih s h
      | conds cs =>
        have hfst : (configProbe name s (FetchResult.conds cs)).1 = updateAcc s cs :=
          configProbe_conds_fst name s cs
        rcases hp : configProbe name s (FetchResult.conds cs) with ⟨s₂, done, err⟩
        rw [hp] at hfst
        simp only at hfst
        have key : pollLoop (configProbe name) (updateAcc s cs) tl =
            (acc, PollResult.deadline) := by
          simp only [pollLoop, hp] at h
          cases err with
          | some e => simp at h
          | none =>
            cases done with
            | true => simp at h
            | false =>
              rw [← hfst]
              exact h
        obtain ⟨h₁, h₂⟩ := ih (updateAcc s cs) key
        constructor
        · rw [h₁, updateAcc_lastReady]
          simp [traceConds, tickConds, lastCondInList_append, lastOr_assoc]
        · rw [h₂, updateAcc_lastDegraded]
          simp [traceConds, tickConds, lastCondInList_append, lastOr_assoc]

/-- Claim C7 —: if the deadline elapses with neither success nor fail-fast, the
convergence waiter returns the timeout diagnostic carrying, for each of the
Ready and Degraded types, the last condition observed over the whole wait;
its rendering prints `"not set"` for a type never observed and the last
status, reason and message for an observed one. -/
theorem configReady_timeout_diagnostic (name : String)
    (trace : List (PollEvent FetchResult))
    (h : (configPollFull name trace).2 = PollResult.deadline) :
    WaitForExternalSecretsConfigReady name trace =
      ConfigWaitResult.timeoutErr name (lastCondInTrace "Ready" trace)
        (lastCondInTrace "Degraded" trace) ∧
    fmtCondStatus (lastCondInTrace "Ready" trace) =
      (match lastCondInTrace "Ready" trace with
        | none => "not set"
        | some m => fmtV m.status? ++ " (reason: " ++ fmtV m.reason? ++
            ", message: " ++ fmtV m.message? ++ ")") := by
  rcases hr : configPollFull name trace with ⟨acc, res⟩
  rw [hr] at h
  simp only at h
  cases h
  obtain ⟨h₁, h₂⟩ := configPoll_deadline_acc name trace ⟨none, none⟩ acc hr
  constructor
  · simp only [WaitForExternalSecretsConfigReady, hr, waitInterrupted]
    rw [h₁, h₂]
    simp [lastCondInTrace, lastOr_none_left]
  · rcases lastCondInTrace "Ready" trace with _ | m <;> rfl

/-- Claim C7 witness —: a trace observing only `Ready=False` (reason "r", message
"m") times out with a diagnostic carrying that last Ready condition and a
never-set Degraded slot. -/
theorem configReady_timeout_diagnostic_example :
    WaitForExternalSecretsConfigReady "esc"
        [PollEvent.tick (FetchResult.conds
          [CondEntry.node ⟨some "Ready", some "False", some "r", some "m"⟩])] =
      ConfigWaitResult.timeoutErr "esc"
        (some ⟨some "Ready", some "False", some "r", some "m"⟩) none :=
  (configReady_timeout_diagnostic "esc"
      [PollEvent.tick (FetchResult.conds
        [CondEntry.node ⟨some "Ready", some "False", some "r", some "m"⟩])]
      (by decide)).1
/-! ## Pod readiness -/

/-- One pass of the `isPodReady` loop from an arbitrary pair of flags: each
flag ends true iff it started true or a condition of its type has status
`"True"`. -/
theorem isPodReady_fold (cs : List PodCondition) (a b : Bool) :
    cs.foldl
      (fun (r : Bool × Bool) c =>
        if c.type = "Ready" ∧ c.status = "True" then (true, r.2)
        else if c.type = "ContainersReady" ∧ c.status = "True" then (r.1, true)
        else r)
      (a, b) =
    (a || cs.any (fun c => decide (c.type = "Ready" ∧ c.status = "True")),
     b || cs.any (fun c => decide (c.type = "ContainersReady" ∧ c.status = "True"))) := by
  induction cs generalizing a b with
  | nil => simp
  | cons c tl ih =>
    simp only [List.foldl_cons, List.any_cons]
    by_cases h₁ : c.type = "Ready" ∧ c.status = "True"
    · obtain ⟨ht, hs⟩ := h₁
      rw [if_pos ⟨ht, hs⟩, ih]
      simp [ht, hs]
    · rw [if_neg h₁]
      by_cases h₂ : c.type = "ContainersReady" ∧ c.status = "True"
      · rw [if_pos h₂, ih]
        simp [h₁, h₂]
      · rw [if_neg h₂, ih]
        simp [h₁, h₂]

/-- Function `isPodReady` rewritten as a pair of existence checks over the condition list. -/
theorem isPodReady_eq_any (pod : Pod) :
    isPodReady pod =
      (pod.conditions.any (fun c => decide (c.type = "Ready" ∧ c.status = "True")) &&
       pod.conditions.any (fun c => decide (c.type = "ContainersReady" ∧ c.status = "True"))) := by
  unfold isPodReady
  rw [isPodReady_fold]
  simp

/-- Claim C10 —: the health test applied to each matched pod holds exactly when
the pod's phase is `Running` and its condition list contains a `Ready`
condition and a `ContainersReady` condition, each with status `"True"`; and
on a successful listing the probe never returns an error, so an unhealthy
pod only ever causes a retry. -/
theorem podGate_characterization (pod : Pod) (pfxs : List String)
    (pods : List Pod) :
    (podGate pod = true ↔
      pod.phase = "Running" ∧
      (∃ c ∈ pod.conditions, c.type = "Ready" ∧ c.status = "True") ∧
      (∃ c ∈ pod.conditions, c.type = "ContainersReady" ∧ c.status = "True")) ∧
    (verifyPodsProbe pfxs (ListResult.pods pods)).2 = none := by
  constructor
  · unfold podGate
    rw [isPodReady_eq_any]
    simp [List.any_eq_true]
  · simp only [verifyPodsProbe]
    split
    · rfl
    · rfl

/-- Claim C10 witness —: a Running pod with both conditions True passes the
health test. -/
theorem podGate_characterization_example :
    podGate ⟨"p", "Running", [⟨"Ready", "True"⟩, ⟨"ContainersReady", "True"⟩]⟩ = true :=
  (podGate_characterization
      ⟨"p", "Running", [⟨"Ready", "True"⟩, ⟨"ContainersReady", "True"⟩]⟩ [] []).1.mpr
    ⟨rfl, ⟨⟨"Ready", "True"⟩, by simp, rfl, rfl⟩,
      ⟨⟨"ContainersReady", "True"⟩, by simp, rfl, rfl⟩⟩

/-! ## Matched-count vs per-prefix coverage -/

/-- Claim C3 counterexample —: expected name prefixes `a` and `b`; the listing
returns two healthy pods both matching `a` and none matching `b`.  The
matched-pod count (2) equals the prefix count (2), so the wait succeeds on
tick 1 although prefix `b` has no matching pod — the claim requires
not-yet-ready here. -/
theorem verifyPods_count_not_coverage :
    VerifyPodsReadyByPrefix ["a", "b"]
        [PollEvent.tick (ListResult.pods
          [⟨"a-1", "Running", [⟨"Ready", "True"⟩, ⟨"ContainersReady", "True"⟩]⟩,
           ⟨"a-2", "Running", [⟨"Ready", "True"⟩, ⟨"ContainersReady", "True"⟩]⟩])] =
      PollResult.ok ∧
    ([⟨"a-1", "Running", [⟨"Ready", "True"⟩, ⟨"ContainersReady", "True"⟩]⟩,
      ⟨"a-2", "Running", [⟨"Ready", "True"⟩, ⟨"ContainersReady", "True"⟩]⟩] : List Pod).all
        (fun pod => ! hasPrefix "b" pod.name) = true := by
  constructor
  · decide
  · decide

/-- Inserting a key not yet present appends the binding at the end. -/
theorem mapInsert_fresh (k : String) (v : Pod) (m : List (String × Pod))
    (h : ∀ kv ∈ m, kv.1 ≠ k) : mapInsert k v m = m ++ [(k, v)] := by
  induction m with
  | nil => rfl
  | cons kv tl ih =>
    rcases kv with ⟨k₁, v₁⟩
    simp only [mapInsert]
    rw [if_neg (h (k₁, v₁) (by simp))]
    rw [ih (fun kv hkv => h kv (by simp [hkv]))]
    simp

/-- When pod names are pairwise distinct (and distinct from the keys already
in the accumulator), the `matched` map is exactly the matching pods, keyed by
name, in listing order. -/
theorem buildMatched_go (pfxs : List String) (pods : List Pod)
    (m : List (String × Pod))
    (hd : (pods.map Pod.name).Nodup)
    (hdisj : ∀ kv ∈ m, ∀ p ∈ pods, kv.1 ≠ p.name) :
    pods.foldl
        (fun m pod => if matchesAny pfxs pod then mapInsert pod.name pod m else m) m =
      m ++ (pods.filter (fun p => matchesAny pfxs p)).map (fun p => (p.name, p)) := by
  induction pods generalizing m with
  | nil => simp
  | cons p tl ih =>
    simp only [List.map_cons, List.nodup_cons] at hd
    obtain ⟨hp, htl⟩ := hd
    simp only [List.foldl_cons]
    by_cases hm : matchesAny pfxs p = true
    · rw [if_pos hm]
      rw [mapInsert_fresh p.name p m (fun kv hkv => hdisj kv hkv p (by simp))]
      have hdisj₁ : ∀ kv ∈ m ++ [(p.name, p)], ∀ q ∈ tl, kv.1 ≠ q.name := by
        intro kv hkv q hq
        rcases List.mem_append.mp hkv with h | h
        · exact hdisj kv h q (by simp [hq])
        · simp only [List.mem_singleton] at h
          subst h
          intro hcontra
          have hc : p.name = q.name := hcontra
          exact hp (hc ▸ List.mem_map_of_mem Pod.name hq)
      rw [ih _ htl hdisj₁]
      simp [List.filter_cons, hm]
    · rw [if_neg hm]
      have hdisj₁ : ∀ kv ∈ m, ∀ q ∈ tl, kv.1 ≠ q.name :=
        fun kv hkv q hq => hdisj kv hkv q (by simp [hq])
      rw [ih _ htl hdisj₁]
      have hmf : matchesAny pfxs p = false := by
        rcases hx : matchesAny pfxs p with _ | _
        · rfl
        · exact absurd hx hm
      simp [List.filter_cons, hmf]

/-- The `matched` map over a listing with pairwise-distinct pod names. -/
theorem buildMatched_eq_filter (pfxs : List String) (pods : List Pod)
    (hd : (pods.map Pod.name).Nodup) :
    buildMatched pfxs pods =
      (pods.filter (fun p => matchesAny pfxs p)).map (fun p => (p.name, p)) := by
  have h := buildMatched_go pfxs pods [] hd (by simp)
  simpa [buildMatched] using h

/-- Claim C3 (amended) —: on a tick whose listing carries pairwise-distinct pod
names, `VerifyPodsReadyByPrefix` declares success exactly when the number of
pods matching some expected prefix equals the number of expected prefixes
and every matching pod passes the health test; per-prefix coverage is not
checked (one prefix matching several pods can compensate for another
matching none), and pods matching no prefix are ignored. -/
theorem verifyPods_success_iff (pfxs : List String) (pods : List Pod)
    (hd : (pods.map Pod.name).Nodup) :
    verifyPodsProbe pfxs (ListResult.pods pods) = (true, none) ↔
      ((pods.filter (fun p => matchesAny pfxs p)).length = pfxs.length ∧
        ∀ p ∈ pods, matchesAny pfxs p = true → podGate p = true) := by
  simp only [verifyPodsProbe, buildMatched_eq_filter pfxs pods hd]
  by_cases hlen : (pods.filter (fun p => matchesAny pfxs p)).length = pfxs.length
  · rw [if_neg (by simpa [List.length_map] using not_not_intro hlen)]
    constructor
    · intro h
      simp only [Prod.mk.injEq] at h
      refine ⟨hlen, ?_⟩
      intro p hp hm
      have hmem : (p.name, p) ∈ (pods.filter (fun p => matchesAny pfxs p)).map
          (fun p => (p.name, p)) :=
        List.mem_map_of_mem _ (List.mem_filter.mpr ⟨hp, by simpa using hm⟩)
      have := List.all_eq_true.mp h.1 (p.name, p) hmem
      simpa using this
    · rintro ⟨-, h₂⟩
      have hall : ((pods.filter (fun p => matchesAny pfxs p)).map
          (fun p => (p.name, p))).all (fun kv => podGate kv.2) = true := by
        rw [List.all_eq_true]
        intro kv hkv
        obtain ⟨q, hq, rfl⟩ := List.mem_map.mp hkv
        have hmem := List.mem_filter.mp hq
        simpa using h₂ q hmem.1 (by simpa using hmem.2)
      rw [hall]
  · rw [if_pos (by simpa [List.length_map] using hlen)]
    constructor
    · intro h
      simp at h
    · rintro ⟨h₁, -⟩
      exact absurd h₁ hlen

/-- Claim C3 witness —: with one healthy pod for each of the two expected
prefixes, the probe succeeds, matching the amended characterization. -/
theorem verifyPods_success_iff_example :
    verifyPodsProbe ["a", "b"]
        (ListResult.pods
          [⟨"a-1", "Running", [⟨"Ready", "True"⟩, ⟨"ContainersReady", "True"⟩]⟩,
           ⟨"b-1", "Running", [⟨"Ready", "True"⟩, ⟨"ContainersReady", "True"⟩]⟩]) =
      (true, none) :=
  (verifyPods_success_iff ["a", "b"]
      [⟨"a-1", "Running", [⟨"Ready", "True"⟩, ⟨"ContainersReady", "True"⟩]⟩,
       ⟨"b-1", "Running", [⟨"Ready", "True"⟩, ⟨"ContainersReady", "True"⟩]⟩]
      (by decide)).mpr ⟨by decide, by decide⟩
